import Mathlib

/-!
Verification of the four-corner flood-fill chroma-key transform in
`src/sukeru.py` (class `ImageMatteProcessor`).  The pixel transform
(`_process_single_image`, lines 50-79) converts the image to RGBA, flood
fills from the four corners with the chroma color (0, 255, 0) at alpha 255
using PIL's `ImageDraw.floodfill`, and then replaces every pixel whose RGB
equals the chroma color by (255, 255, 255, 0).  The batch driver
(`process_directory`, lines 29-48) discovers png/jpg/jpeg files, isolates
per-file failures, and logs completion.
-/

namespace Sukeru

/-- An RGBA pixel as stored by PIL in mode RGBA: four 8-bit channels. -/
structure Pixel where
  r : Nat
  g : Nat
  b : Nat
  a : Nat
deriving DecidableEq

/-- Absolute difference of two natural numbers. -/
def dist1 (x y : Nat) : Nat := max x y - min x y

/-- Modelled from PIL.ImageDraw's color difference used by floodfill: the
1-norm distance, summing the absolute per-channel differences over all four
RGBA channels of the two colors. -/
def colorDiff (c d : Pixel) : Nat :=
  dist1 c.r d.r + dist1 c.g d.g + dist1 c.b d.b + dist1 c.a d.a

/-- The chroma color (0, 255, 0) with alpha 255 appended: the fill value
passed to floodfill at src/sukeru.py line 66 (`self.chroma_color + (255,)`). -/
def fillValue : Pixel := ⟨0, 255, 0, 255⟩

/-- The replacement written for matched chroma pixels at line 75:
(255, 255, 255, 0). -/
def transparentPixel : Pixel := ⟨255, 255, 255, 0⟩

/-- The test at line 74: `item[0] == 0 and item[1] == 255 and item[2] == 0`. -/
def isChromaRGB (c : Pixel) : Bool := c.r == 0 && c.g == 255 && c.b == 0

/-- An RGBA image: a width, a height, and a pixel lookup on coordinates. -/
structure Image where
  width : Nat
  height : Nat
  pix : Nat × Nat → Pixel

/-- The coordinate grid of a width x height image. -/
def gridF (w h : Nat) : Finset (Nat × Nat) := Finset.range w ×ˢ Finset.range h

lemma mem_gridF {w h : Nat} {p : Nat × Nat} : p ∈ gridF w h ↔ p.1 < w ∧ p.2 < h := by
  cases p
  simp [gridF]

lemma card_gridF (w h : Nat) : (gridF w h).card = w * h := by
  rw [gridF, Finset.card_product, Finset.card_range, Finset.card_range]

/-- 4-neighbourhood adjacency on coordinates (PIL's floodfill expands to the
four pixels at offsets (±1, 0) and (0, ±1)). -/
def adjB (p q : Nat × Nat) : Bool :=
  (p.1 == q.1 && (p.2 == q.2 + 1 || q.2 == p.2 + 1)) ||
  (p.2 == q.2 && (p.1 == q.1 + 1 || q.1 == p.1 + 1))

/-- One round of region growing: add every in-bounds pixel that satisfies
`ok` and is 4-adjacent to the current region. -/
def expandOnce (ok : Nat × Nat → Bool) (w h : Nat) (s : Finset (Nat × Nat)) : Finset (Nat × Nat) :=
  s ∪ (gridF w h).filter fun q => ok q = true ∧ ∃ p ∈ s, adjB p q = true

/-- The connected region grown from a seed; w * h + 1 rounds always reach the
fixed point, so this is the full connected component of the seed among the
pixels satisfying `ok`. -/
def component (ok : Nat × Nat → Bool) (w h : Nat) (seed : Nat × Nat) : Finset (Nat × Nat) :=
  (expandOnce ok w h)^[w * h + 1] {seed}

lemma subset_expandOnce (ok : Nat × Nat → Bool) (w h : Nat) (s : Finset (Nat × Nat)) :
    s ⊆ expandOnce ok w h s :=
  fun _ hx => Finset.mem_union.mpr (Or.inl hx)

lemma expandOnce_subset {ok : Nat × Nat → Bool} {w h : Nat} {s U : Finset (Nat × Nat)}
    (hs : s ⊆ U) (hg : gridF w h ⊆ U) : expandOnce ok w h s ⊆ U :=
  Finset.union_subset hs ((Finset.filter_subset _ _).trans hg)

lemma iterate_subset_succ (ok : Nat × Nat → Bool) (w h : Nat) (x : Finset (Nat × Nat)) (n : Nat) :
    (expandOnce ok w h)^[n] x ⊆ (expandOnce ok w h)^[n + 1] x := by
  rw [Function.iterate_succ_apply']
  exact subset_expandOnce ok w h _

lemma subset_iterate (ok : Nat × Nat → Bool) (w h : Nat) (x : Finset (Nat × Nat)) :
    ∀ n : Nat, x ⊆ (expandOnce ok w h)^[n] x := by
  intro n
  induction n with
  | zero => simp
  | succ n ih => exact ih.trans (iterate_subset_succ ok w h x n)

lemma iterate_subset_grid (ok : Nat × Nat → Bool) (w h : Nat) (seed : Nat × Nat)
    (hseed : seed ∈ gridF w h) (n : Nat) :
    (expandOnce ok w h)^[n] ({seed} : Finset (Nat × Nat)) ⊆ gridF w h := by
  induction n with
  | zero => simpa using Finset.singleton_subset_iff.mpr hseed
  | succ n ih =>
    rw [Function.iterate_succ_apply']
    exact expandOnce_subset ih (fun x hx => hx)

lemma iterate_growth (ok : Nat × Nat → Bool) (w h : Nat) (x : Finset (Nat × Nat)) :
    ∀ n : Nat, (∀ k : Nat, k < n →
        (expandOnce ok w h)^[k + 1] x ≠ (expandOnce ok w h)^[k] x) →
      n + x.card ≤ ((expandOnce ok w h)^[n] x).card := by
  intro n
  induction n with
  | zero => intro _; simp
  | succ n ih =>
    intro hne
    have h1 : n + x.card ≤ ((expandOnce ok w h)^[n] x).card :=
      ih (fun k hk => hne k (Nat.lt_succ_of_lt hk))
    have h2 : ((expandOnce ok w h)^[n] x) ⊂ ((expandOnce ok w h)^[n + 1] x) := by
      refine ssubset_iff_subset_ne.mpr ⟨iterate_subset_succ ok w h x n, ?_⟩
      exact fun he => hne n (Nat.lt_succ_self n) he.symm
    have h3 := Finset.card_lt_card h2
    omega

lemma iterate_stab {α : Type} (f : α → α) (x : α) (n : Nat)
    (h : f^[n + 1] x = f^[n] x) : ∀ k : Nat, f^[n + k] x = f^[n] x := by
  intro k
  induction k with
  | zero => rfl
  | succ k ih =>
    have he : n + (k + 1) = (n + k) + 1 := by omega
    rw [he, Function.iterate_succ_apply', ih]
    exact (Function.iterate_succ_apply' f n x).symm.trans h

lemma component_fixed (ok : Nat × Nat → Bool) (w h : Nat) (seed : Nat × Nat)
    (hseed : seed ∈ gridF w h) :
    expandOnce ok w h (component ok w h seed) = component ok w h seed := by
  have hcard : ∀ n : Nat,
      ((expandOnce ok w h)^[n] ({seed} : Finset (Nat × Nat))).card ≤ w * h := by
    intro n
    have := Finset.card_le_card (iterate_subset_grid ok w h seed hseed n)
    simpa [card_gridF] using this
  have hex : ¬ (∀ k : Nat, k < w * h + 1 →
      (expandOnce ok w h)^[k + 1] ({seed} : Finset (Nat × Nat)) ≠
        (expandOnce ok w h)^[k] {seed}) := by
    intro hall
    have h1 := iterate_growth ok w h {seed} (w * h + 1) hall
    have h2 := hcard (w * h + 1)
    rw [Finset.card_singleton] at h1
    omega
  push_neg at hex
  obtain ⟨k, hk, heq⟩ := hex
  have hs1 : ∀ m : Nat,
      (expandOnce ok w h)^[k + m] ({seed} : Finset (Nat × Nat)) =
        (expandOnce ok w h)^[k] {seed} := iterate_stab _ _ k heq
  have e1 : (expandOnce ok w h)^[w * h + 1] ({seed} : Finset (Nat × Nat)) =
      (expandOnce ok w h)^[k] {seed} := by
    have he : w * h + 1 = k + (w * h + 1 - k) := by omega
    rw [he, hs1]
  have e2 : (expandOnce ok w h)^[w * h + 2] ({seed} : Finset (Nat × Nat)) =
      (expandOnce ok w h)^[k] {seed} := by
    have he : w * h + 2 = k + (w * h + 2 - k) := by omega
    rw [he, hs1]
  calc expandOnce ok w h (component ok w h seed)
      = (expandOnce ok w h)^[w * h + 2] {seed} := by
        rw [component]
        exact (Function.iterate_succ_apply' (expandOnce ok w h) (w * h + 1) {seed}).symm
    _ = (expandOnce ok w h)^[k] {seed} := e2
    _ = component ok w h seed := by rw [component, e1]

lemma component_subset_grid (ok : Nat × Nat → Bool) (w h : Nat) (seed : Nat × Nat)
    (hseed : seed ∈ gridF w h) : component ok w h seed ⊆ gridF w h :=
  iterate_subset_grid ok w h seed hseed (w * h + 1)

lemma seed_mem_component (ok : Nat × Nat → Bool) (w h : Nat) (seed : Nat × Nat) :
    seed ∈ component ok w h seed :=
  subset_iterate ok w h {seed} (w * h + 1) (Finset.mem_singleton_self seed)

/-- One admissible flood-fill move: the target is 4-adjacent, in bounds, and
its color lies within the threshold of the reference color `bg`. -/
def Steps (img : Image) (bg : Pixel) (t : Nat) (p q : Nat × Nat) : Prop :=
  adjB p q = true ∧ q ∈ gridF img.width img.height ∧ colorDiff (img.pix q) bg ≤ t

/-- `p` is 4-connected to the seed `s` through pixels whose color lies within
`t` of the color of the seed pixel itself (the comparison is always against
the seed pixel's color, never against the previously visited neighbor). -/
def Reaches (img : Image) (t : Nat) (s p : Nat × Nat) : Prop :=
  Relation.ReflTransGen (Steps img (img.pix s) t) s p

/-- The fill predicate used by the flood fill, as a Boolean test. -/
def okOf (img : Image) (bg : Pixel) (t : Nat) : Nat × Nat → Bool :=
  fun q => decide (colorDiff (img.pix q) bg ≤ t)

lemma mem_iterate_reflTrans (img : Image) (bg : Pixel) (t : Nat) (s : Nat × Nat) :
    ∀ (n : Nat) (p : Nat × Nat),
      p ∈ (expandOnce (okOf img bg t) img.width img.height)^[n] ({s} : Finset (Nat × Nat)) →
      Relation.ReflTransGen (Steps img bg t) s p := by
  intro n
  induction n with
  | zero =>
    intro p hp
    simp only [Function.iterate_zero_apply, Finset.mem_singleton] at hp
    subst hp
    exact Relation.ReflTransGen.refl
  | succ n ih =>
    intro p hp
    rw [Function.iterate_succ_apply'] at hp
    rcases Finset.mem_union.mp hp with hmem | hmem
    · exact ih p hmem
    · rcases Finset.mem_filter.mp hmem with ⟨hgrid, hok, q, hq, hadj⟩
      have hc : colorDiff (img.pix p) bg ≤ t := by
        simpa [okOf] using hok
      exact Relation.ReflTransGen.tail (ih q hq) ⟨hadj, hgrid, hc⟩

lemma reflTrans_mem_component (img : Image) (bg : Pixel) (t : Nat) (s : Nat × Nat)
    (hs : s ∈ gridF img.width img.height) :
    ∀ p : Nat × Nat, Relation.ReflTransGen (Steps img bg t) s p →
      p ∈ component (okOf img bg t) img.width img.height s := by
  intro p hp
  induction hp with
  | refl => exact seed_mem_component _ _ _ _
  | tail hqp hstep ih =>
    rw [← component_fixed (okOf img bg t) img.width img.height s hs]
    refine Finset.mem_union.mpr (Or.inr (Finset.mem_filter.mpr ⟨hstep.2.1, ?_, ?_⟩))
    · simpa [okOf] using hstep.2.2
    · exact ⟨_, ih, hstep.1⟩

lemma mem_component_iff (img : Image) (bg : Pixel) (t : Nat) (s p : Nat × Nat)
    (hs : s ∈ gridF img.width img.height) :
    p ∈ component (okOf img bg t) img.width img.height s ↔
      Relation.ReflTransGen (Steps img bg t) s p :=
  ⟨mem_iterate_reflTrans img bg t s _ p, reflTrans_mem_component img bg t s hs p⟩

/-- Overwrite the pixels of a region with a single value. -/
def paint (img : Image) (s : Finset (Nat × Nat)) (v : Pixel) : Image :=
  { img with pix := fun p => if p ∈ s then v else img.pix p }

/-- Modelled from PIL.ImageDraw.floodfill, as invoked at src/sukeru.py line 66.
The library reads the seed pixel (returning unchanged if the seed is out of
bounds), returns unchanged when the fill value is already within `thresh` of
the seed's color, and otherwise overwrites with `value` exactly the 4-connected
region of pixels whose color is within `thresh` (1-norm over RGBA) of the
original seed color. -/
def floodfill (img : Image) (xy : Nat × Nat) (value : Pixel) (thresh : Nat) : Image :=
  if xy.1 < img.width ∧ xy.2 < img.height then
    if colorDiff value (img.pix xy) ≤ thresh then img
    else paint img (component (okOf img (img.pix xy) thresh) img.width img.height xy) value
  else img

/-- The four corner seed points built at src/sukeru.py lines 59-62. -/
def seedPoints (w h : Nat) : List (Nat × Nat) :=
  [(0, 0), (w - 1, 0), (0, h - 1), (w - 1, h - 1)]

/-- The fill loop at lines 65-66: run floodfill with the chroma fill value from
each seed in turn, each fill reading its seed color from the current image. -/
def fillFold (t : Nat) (img : Image) (ss : List (Nat × Nat)) : Image :=
  ss.foldl (fun im pt => floodfill im pt fillValue t) img

/-- All four corner fills of `_process_single_image`. -/
def runFills (img : Image) (t : Nat) : Image :=
  fillFold t img (seedPoints img.width img.height)

/-- The per-pixel replacement of the second pass (lines 72-77). -/
def chromaSwap (c : Pixel) : Pixel :=
  if isChromaRGB c = true then transparentPixel else c

/-- Pointwise recoloring, as done by the getdata/putdata pass. -/
def mapPix (img : Image) (f : Pixel → Pixel) : Image :=
  { img with pix := fun p => f (img.pix p) }

/-- The whole pixel transform of `_process_single_image` (lines 50-79, after
the RGBA conversion): four corner flood fills, then the chroma-to-transparent
replacement pass. -/
def applyMatte (img : Image) (t : Nat) : Image := mapPix (runFills img t) chromaSwap

lemma floodfill_oob_eq (img : Image) (xy : Nat × Nat) (v : Pixel) (t : Nat)
    (hxy : ¬ (xy.1 < img.width ∧ xy.2 < img.height)) : floodfill img xy v t = img := by
  unfold floodfill
  rw [if_neg hxy]

/-- With the fill value within threshold of the seed color, floodfill is the
identity (the early return of PIL's floodfill). -/
lemma floodfill_near_eq (img : Image) (xy : Nat × Nat) (v : Pixel) (t : Nat)
    (h : colorDiff v (img.pix xy) ≤ t) : floodfill img xy v t = img := by
  by_cases hxy : xy.1 < img.width ∧ xy.2 < img.height
  · unfold floodfill
    rw [if_pos hxy, if_pos h]
  · exact floodfill_oob_eq img xy v t hxy

lemma floodfill_far_eq (img : Image) (xy : Nat × Nat) (v : Pixel) (t : Nat)
    (hxy : xy ∈ gridF img.width img.height)
    (h : ¬ colorDiff v (img.pix xy) ≤ t) :
    floodfill img xy v t =
      paint img (component (okOf img (img.pix xy) t) img.width img.height xy) v := by
  unfold floodfill
  rw [if_pos (mem_gridF.mp hxy), if_neg h]

lemma paint_pix (img : Image) (s : Finset (Nat × Nat)) (v : Pixel) (p : Nat × Nat) :
    (paint img s v).pix p = if p ∈ s then v else img.pix p := rfl

lemma paint_width (img : Image) (s : Finset (Nat × Nat)) (v : Pixel) :
    (paint img s v).width = img.width := rfl

lemma paint_height (img : Image) (s : Finset (Nat × Nat)) (v : Pixel) :
    (paint img s v).height = img.height := rfl

lemma floodfill_width (img : Image) (xy : Nat × Nat) (v : Pixel) (t : Nat) :
    (floodfill img xy v t).width = img.width := by
  by_cases hxy : xy.1 < img.width ∧ xy.2 < img.height
  · by_cases h : colorDiff v (img.pix xy) ≤ t
    · rw [floodfill_near_eq img xy v t h]
    · rw [floodfill_far_eq img xy v t (mem_gridF.mpr hxy) h, paint_width]
  · rw [floodfill_oob_eq img xy v t hxy]

lemma floodfill_height (img : Image) (xy : Nat × Nat) (v : Pixel) (t : Nat) :
    (floodfill img xy v t).height = img.height := by
  by_cases hxy : xy.1 < img.width ∧ xy.2 < img.height
  · by_cases h : colorDiff v (img.pix xy) ≤ t
    · rw [floodfill_near_eq img xy v t h]
    · rw [floodfill_far_eq img xy v t (mem_gridF.mpr hxy) h, paint_height]
  · rw [floodfill_oob_eq img xy v t hxy]

lemma fillFold_nil (t : Nat) (img : Image) : fillFold t img [] = img := rfl

lemma fillFold_cons (t : Nat) (img : Image) (s : Nat × Nat) (ss : List (Nat × Nat)) :
    fillFold t img (s :: ss) = fillFold t (floodfill img s fillValue t) ss := rfl

lemma fillFold_width (t : Nat) (ss : List (Nat × Nat)) :
    ∀ img : Image, (fillFold t img ss).width = img.width := by
  induction ss with
  | nil => intro img; rfl
  | cons s ss ih =>
    intro img
    rw [fillFold_cons, ih, floodfill_width]

lemma fillFold_height (t : Nat) (ss : List (Nat × Nat)) :
    ∀ img : Image, (fillFold t img ss).height = img.height := by
  induction ss with
  | nil => intro img; rfl
  | cons s ss ih =>
    intro img
    rw [fillFold_cons, ih, floodfill_height]

lemma applyMatte_width (img : Image) (t : Nat) : (applyMatte img t).width = img.width :=
  fillFold_width t _ img

lemma applyMatte_height (img : Image) (t : Nat) : (applyMatte img t).height = img.height :=
  fillFold_height t _ img

lemma applyMatte_pix (img : Image) (t : Nat) (p : Nat × Nat) :
    (applyMatte img t).pix p = chromaSwap ((runFills img t).pix p) := rfl

/-- Every pixel of a flood-fill result is either unchanged or the fill value. -/
lemma floodfill_pix_cases (img : Image) (xy : Nat × Nat) (v : Pixel) (t : Nat) (p : Nat × Nat) :
    (floodfill img xy v t).pix p = img.pix p ∨ (floodfill img xy v t).pix p = v := by
  by_cases hxy : xy.1 < img.width ∧ xy.2 < img.height
  · by_cases h : colorDiff v (img.pix xy) ≤ t
    · rw [floodfill_near_eq img xy v t h]
      exact Or.inl rfl
    · rw [floodfill_far_eq img xy v t (mem_gridF.mpr hxy) h, paint_pix]
      split
      · exact Or.inr rfl
      · exact Or.inl rfl
  · rw [floodfill_oob_eq img xy v t hxy]
    exact Or.inl rfl

/-- A pixel already holding the fill value keeps it through a flood fill. -/
lemma floodfill_pix_fill (img : Image) (xy : Nat × Nat) (t : Nat) (p : Nat × Nat)
    (h : img.pix p = fillValue) : (floodfill img xy fillValue t).pix p = fillValue := by
  rcases floodfill_pix_cases img xy fillValue t p with hc | hc
  · rw [hc, h]
  · exact hc

lemma fillFold_pix_cases (t : Nat) (ss : List (Nat × Nat)) :
    ∀ (img : Image) (p : Nat × Nat),
      (fillFold t img ss).pix p = img.pix p ∨ (fillFold t img ss).pix p = fillValue := by
  induction ss with
  | nil => intro img p; exact Or.inl rfl
  | cons s ss ih =>
    intro img p
    rcases ih (floodfill img s fillValue t) p with hc | hc
    · rcases floodfill_pix_cases img s fillValue t p with hd | hd
      · exact Or.inl (hc.trans hd)
      · exact Or.inr (hc.trans hd)
    · exact Or.inr hc

lemma fillFold_pix_fill (t : Nat) (ss : List (Nat × Nat)) :
    ∀ (img : Image) (p : Nat × Nat), img.pix p = fillValue →
      (fillFold t img ss).pix p = fillValue := by
  induction ss with
  | nil => intro img p h; exact h
  | cons s ss ih =>
    intro img p h
    exact ih (floodfill img s fillValue t) p (floodfill_pix_fill img s t p h)

lemma colorDiff_self (c : Pixel) : colorDiff c c = 0 := by
  simp [colorDiff, dist1]

/-- A reached pixel other than the seed is in bounds and within the threshold
of the reference color. -/
lemma reflTrans_pred (img : Image) (bg : Pixel) (t : Nat) (s p : Nat × Nat)
    (h : Relation.ReflTransGen (Steps img bg t) s p) :
    p = s ∨ (p ∈ gridF img.width img.height ∧ colorDiff (img.pix p) bg ≤ t) := by
  induction h with
  | refl => exact Or.inl rfl
  | tail _ hstep _ => exact Or.inr ⟨hstep.2.1, hstep.2.2⟩

/-- When the fill actually runs (seed in bounds, fill value beyond the
threshold of the seed color), it paints exactly the pixels 4-connected to the
seed through colors within the threshold of the seed's original color. -/
lemma floodfill_pix_far (img : Image) (s : Nat × Nat) (v : Pixel) (t : Nat)
    (hs : s ∈ gridF img.width img.height)
    (hfar : ¬ colorDiff v (img.pix s) ≤ t) (p : Nat × Nat) :
    (Reaches img t s p → (floodfill img s v t).pix p = v) ∧
    (¬ Reaches img t s p → (floodfill img s v t).pix p = img.pix p) := by
  rw [floodfill_far_eq img s v t hs hfar]
  constructor
  · intro hr
    rw [paint_pix, if_pos ((mem_component_iff img (img.pix s) t s p hs).mpr hr)]
  · intro hr
    rw [paint_pix, if_neg (fun hm => hr ((mem_component_iff img (img.pix s) t s p hs).mp hm))]

/-- A flood fill run on an intermediate image that differs from the base image
only on pixels already overwritten with the fill value never touches a pixel
that is unreachable from its seed in the base image. -/
lemma floodfill_pix_unreached (img0 img1 : Image) (s Q : Nat × Nat) (t : Nat)
    (hw : img1.width = img0.width) (hh : img1.height = img0.height)
    (hinv : ∀ p : Nat × Nat, img1.pix p = img0.pix p ∨ img1.pix p = fillValue)
    (hQ : ¬ Reaches img0 t s Q) :
    (floodfill img1 s fillValue t).pix Q = img1.pix Q := by
  by_cases hxy : s.1 < img1.width ∧ s.2 < img1.height
  · by_cases hnear : colorDiff fillValue (img1.pix s) ≤ t
    · rw [floodfill_near_eq img1 s fillValue t hnear]
    · have hbg : img1.pix s = img0.pix s := by
        rcases hinv s with hcase | hcase
        · exact hcase
        · exact absurd (by rw [hcase, colorDiff_self]; exact Nat.zero_le t) hnear
      rw [floodfill_far_eq img1 s fillValue t (mem_gridF.mpr hxy) hnear, paint_pix]
      rw [if_neg]
      intro hm
      have hr1 : Relation.ReflTransGen (Steps img1 (img1.pix s) t) s Q :=
        (mem_component_iff img1 (img1.pix s) t s Q (mem_gridF.mpr hxy)).mp hm
      rw [hbg] at hr1 hnear
      have hr0 : Relation.ReflTransGen (Steps img0 (img0.pix s) t) s Q := by
        refine Relation.ReflTransGen.mono ?_ hr1
        intro a b hstep
        obtain ⟨hadj, hb, hc⟩ := hstep
        have hbpix : img1.pix b = img0.pix b := by
          rcases hinv b with hcase | hcase
          · exact hcase
          · rw [hcase] at hc
            exact absurd hc hnear
        rw [hbpix] at hc
        rw [hw, hh] at hb
        exact ⟨hadj, hb, hc⟩
      exact hQ hr0
  · rw [floodfill_oob_eq img1 s fillValue t hxy]

/-- Running the fills from a list of seeds never touches a pixel unreachable
from every seed (reachability taken in the starting image). -/
lemma fillFold_pix_unreached (img0 : Image) (t : Nat) (Q : Nat × Nat) :
    ∀ (ss : List (Nat × Nat)) (img1 : Image),
      img1.width = img0.width → img1.height = img0.height →
      (∀ p : Nat × Nat, img1.pix p = img0.pix p ∨ img1.pix p = fillValue) →
      (∀ s ∈ ss, ¬ Reaches img0 t s Q) →
      (fillFold t img1 ss).pix Q = img1.pix Q := by
  intro ss
  induction ss with
  | nil =>
    intro img1 _ _ _ _
    rfl
  | cons s ss ih =>
    intro img1 hw hh hinv hQ
    rw [fillFold_cons]
    have h1 : (floodfill img1 s fillValue t).pix Q = img1.pix Q :=
      floodfill_pix_unreached img0 img1 s Q t hw hh hinv (hQ s (List.mem_cons_self s ss))
    have h2 := ih (floodfill img1 s fillValue t)
      ((floodfill_width img1 s fillValue t).trans hw)
      ((floodfill_height img1 s fillValue t).trans hh)
      (fun p => by
        rcases floodfill_pix_cases img1 s fillValue t p with hcase | hcase
        · rcases hinv p with h0 | h0
          · exact Or.inl (hcase.trans h0)
          · exact Or.inr (hcase.trans h0)
        · exact Or.inr hcase)
      (fun s2 hs2 => hQ s2 (List.mem_cons_of_mem s hs2))
    rw [h2, h1]

/-- The four corner fills leave every pixel unreachable from all four corners
unchanged. -/
lemma runFills_pix_unreached (img : Image) (t : Nat) (Q : Nat × Nat)
    (hQ : ∀ s ∈ seedPoints img.width img.height, ¬ Reaches img t s Q) :
    (runFills img t).pix Q = img.pix Q :=
  fillFold_pix_unreached img t Q (seedPoints img.width img.height) img rfl rfl
    (fun _ => Or.inl rfl) hQ

lemma seedPoints_mem_grid (w h : Nat) (hw : 0 < w) (hh : 0 < h) :
    ∀ s ∈ seedPoints w h, s ∈ gridF w h := by
  intro s hs
  simp only [seedPoints, List.mem_cons, List.mem_singleton] at hs
  rcases hs with hs | hs | hs | hs | hs
  all_goals first
  | (subst hs; exact mem_gridF.mpr ⟨by omega, by omega⟩)
  | exact absurd hs (List.not_mem_nil s)

lemma steps_mono_thresh (img : Image) (bg : Pixel) {t1 t2 : Nat} (h : t1 ≤ t2)
    (a b : Nat × Nat) (hs : Steps img bg t1 a b) : Steps img bg t2 a b :=
  ⟨hs.1, hs.2.1, hs.2.2.trans h⟩

lemma reflTrans_mono_thresh (img : Image) (bg : Pixel) {t1 t2 : Nat} (h : t1 ≤ t2)
    {s p : Nat × Nat} (hr : Relation.ReflTransGen (Steps img bg t1) s p) :
    Relation.ReflTransGen (Steps img bg t2) s p :=
  Relation.ReflTransGen.mono (steps_mono_thresh img bg h) hr

/-- A set of pixels closed under admissible flood-fill moves. -/
def StepClosed (img : Image) (bg : Pixel) (t : Nat) (P : Nat × Nat → Prop) : Prop :=
  ∀ p q : Nat × Nat, P p → Steps img bg t p q → P q

lemma stepClosed_absorb (img : Image) (bg : Pixel) (t : Nat) (P : Nat × Nat → Prop)
    (hP : StepClosed img bg t P) (s p : Nat × Nat) (hs : P s)
    (hr : Relation.ReflTransGen (Steps img bg t) s p) : P p := by
  induction hr with
  | refl => exact hs
  | tail _ hstep ih => exact hP _ _ ih hstep

lemma stepClosed_or_reach (img : Image) (bg : Pixel) (t : Nat) (P : Nat × Nat → Prop)
    (hP : StepClosed img bg t P) (s : Nat × Nat) :
    StepClosed img bg t
      (fun p => P p ∨ Relation.ReflTransGen (Steps img bg t) s p) := by
  intro p q hp hstep
  rcases hp with hp | hp
  · exact Or.inl (hP p q hp hstep)
  · exact Or.inr (hp.tail hstep)

/-- An intermediate image of the fill loop: the dimensions of the base image,
the pixels of `P` overwritten with the fill value, everything else original. -/
def PaintedAs (img0 img1 : Image) (P : Nat × Nat → Prop) : Prop :=
  img1.width = img0.width ∧ img1.height = img0.height ∧
    ∀ p : Nat × Nat, (P p → img1.pix p = fillValue) ∧ (¬ P p → img1.pix p = img0.pix p)

lemma paintedAs_congr (img0 img1 : Image) (P Q : Nat × Nat → Prop)
    (h : ∀ p, P p ↔ Q p) (hPA : PaintedAs img0 img1 P) : PaintedAs img0 img1 Q :=
  ⟨hPA.1, hPA.2.1, fun p =>
    ⟨fun hq => (hPA.2.2 p).1 ((h p).mpr hq),
     fun hq => (hPA.2.2 p).2 (fun hp => hq ((h p).mp hp))⟩⟩

/-- One fill step of the loop, when every in-bounds pixel is beyond the
threshold of the fill value and the seed carries the common corner color:
the painted region grows by exactly the pixels the seed reaches in the
base image. -/
lemma paintedAs_floodfill (img0 : Image) (c0 : Pixel) (t : Nat)
    (hfar : ∀ p ∈ gridF img0.width img0.height, ¬ colorDiff fillValue (img0.pix p) ≤ t)
    (P : Nat × Nat → Prop) (hP : StepClosed img0 c0 t P)
    (img1 : Image) (hPA : PaintedAs img0 img1 P)
    (s : Nat × Nat) (hs : s ∈ gridF img0.width img0.height) (hsc : img0.pix s = c0) :
    PaintedAs img0 (floodfill img1 s fillValue t)
      (fun p => P p ∨ Relation.ReflTransGen (Steps img0 c0 t) s p) := by
  obtain ⟨hw, hh, hpix⟩ := hPA
  have hgrid1 : gridF img1.width img1.height = gridF img0.width img0.height := by
    rw [hw, hh]
  have hfarc : ¬ colorDiff fillValue c0 ≤ t := by
    rw [← hsc]
    exact hfar s hs
  by_cases hPs : P s
  · have h1 : img1.pix s = fillValue := (hpix s).1 hPs
    have heq : floodfill img1 s fillValue t = img1 :=
      floodfill_near_eq img1 s fillValue t (by rw [h1, colorDiff_self]; exact Nat.zero_le t)
    rw [heq]
    refine ⟨hw, hh, fun p => ⟨?_, ?_⟩⟩
    · intro hp
      rcases hp with hp | hp
      · exact (hpix p).1 hp
      · exact (hpix p).1 (stepClosed_absorb img0 c0 t P hP s p hPs hp)
    · intro hp
      exact (hpix p).2 (fun h2 => hp (Or.inl h2))
  · have hbg : img1.pix s = c0 := by rw [(hpix s).2 hPs, hsc]
    have hfs : ¬ colorDiff fillValue (img1.pix s) ≤ t := by rw [hbg]; exact hfarc
    have hs1 : s ∈ gridF img1.width img1.height := by rw [hgrid1]; exact hs
    have hT1 : ∀ a b : Nat × Nat, Steps img1 c0 t a b → Steps img0 c0 t a b := by
      intro a b hstep
      obtain ⟨hadj, hb, hc⟩ := hstep
      have hnotP : ¬ P b := by
        intro hPb
        rw [(hpix b).1 hPb] at hc
        exact hfarc hc
      rw [(hpix b).2 hnotP] at hc
      rw [hgrid1] at hb
      exact ⟨hadj, hb, hc⟩
    have hT2 : ∀ p : Nat × Nat, Relation.ReflTransGen (Steps img0 c0 t) s p →
        P p ∨ Relation.ReflTransGen (Steps img1 c0 t) s p := by
      intro p hr
      induction hr with
      | refl => exact Or.inr Relation.ReflTransGen.refl
      | tail hqb hstep ih =>
        rename_i q b
        rcases ih with hPq | hRq
        · exact Or.inl (hP _ _ hPq hstep)
        · by_cases hPb : P b
          · exact Or.inl hPb
          · refine Or.inr (hRq.tail ?_)
            obtain ⟨hadj, hbgr, hc⟩ := hstep
            refine ⟨hadj, by rw [hgrid1]; exact hbgr, ?_⟩
            rw [(hpix b).2 hPb]
            exact hc
    rw [floodfill_far_eq img1 s fillValue t hs1 hfs, hbg]
    refine ⟨hw, hh, fun p => ⟨?_, ?_⟩⟩
    · intro hp
      rw [paint_pix]
      by_cases hm : p ∈ component (okOf img1 c0 t) img1.width img1.height s
      · rw [if_pos hm]
      · rw [if_neg hm]
        rcases hp with hp | hp
        · exact (hpix p).1 hp
        · rcases hT2 p hp with hPp | hRp
          · exact (hpix p).1 hPp
          · exact absurd ((mem_component_iff img1 c0 t s p hs1).mpr hRp) hm
    · intro hp
      rw [paint_pix, if_neg, (hpix p).2 (fun hPp => hp (Or.inl hPp))]
      intro hm
      have hr1 : Relation.ReflTransGen (Steps img1 c0 t) s p :=
        (mem_component_iff img1 c0 t s p hs1).mp hm
      exact hp (Or.inr (Relation.ReflTransGen.mono hT1 hr1))

/-- Characterization of the full fill loop under the same hypotheses. -/
lemma paintedAs_fillFold (img0 : Image) (c0 : Pixel) (t : Nat)
    (hfar : ∀ p ∈ gridF img0.width img0.height, ¬ colorDiff fillValue (img0.pix p) ≤ t) :
    ∀ (ss : List (Nat × Nat)) (P : Nat × Nat → Prop), StepClosed img0 c0 t P →
      ∀ img1 : Image, PaintedAs img0 img1 P →
      (∀ s ∈ ss, s ∈ gridF img0.width img0.height ∧ img0.pix s = c0) →
      PaintedAs img0 (fillFold t img1 ss)
        (fun p => P p ∨ ∃ s ∈ ss, Relation.ReflTransGen (Steps img0 c0 t) s p) := by
  intro ss
  induction ss with
  | nil =>
    intro P hP img1 hPA _
    refine paintedAs_congr img0 img1 P _ (fun p => ?_) hPA
    simp
  | cons s ss ih =>
    intro P hP img1 hPA hss
    rw [fillFold_cons]
    have h1 := paintedAs_floodfill img0 c0 t hfar P hP img1 hPA s
      (hss s (List.mem_cons_self s ss)).1 (hss s (List.mem_cons_self s ss)).2
    have h2 := ih (fun p => P p ∨ Relation.ReflTransGen (Steps img0 c0 t) s p)
      (stepClosed_or_reach img0 c0 t P hP s) (floodfill img1 s fillValue t) h1
      (fun s2 hs2 => hss s2 (List.mem_cons_of_mem s hs2))
    refine paintedAs_congr img0 _ _ _ (fun p => ?_) h2
    constructor
    · intro hp
      rcases hp with (hp | hp) | ⟨s2, hs2, hp⟩
      · exact Or.inl hp
      · exact Or.inr ⟨s, List.mem_cons_self s ss, hp⟩
      · exact Or.inr ⟨s2, List.mem_cons_of_mem s hs2, hp⟩
    · intro hp
      rcases hp with hp | ⟨s2, hs2, hp⟩
      · exact Or.inl (Or.inl hp)
      · rcases List.mem_cons.mp hs2 with he | hs2
        · subst he
          exact Or.inl (Or.inr hp)
        · exact Or.inr ⟨s2, hs2, hp⟩

/-- With all four corners sharing one color and every in-bounds pixel beyond
the threshold of the fill value, the four corner fills paint exactly the
pixels reachable from some corner in the original image. -/
lemma runFills_paintedAs (img : Image) (t : Nat) (hw : 0 < img.width) (hh : 0 < img.height)
    (hc : ∀ s ∈ seedPoints img.width img.height, img.pix s = img.pix (0, 0))
    (hfar : ∀ p ∈ gridF img.width img.height, ¬ colorDiff fillValue (img.pix p) ≤ t) :
    PaintedAs img (runFills img t)
      (fun p => ∃ s ∈ seedPoints img.width img.height,
        Relation.ReflTransGen (Steps img (img.pix (0, 0)) t) s p) := by
  have h0 := paintedAs_fillFold img (img.pix (0, 0)) t hfar
    (seedPoints img.width img.height) (fun _ => False) (fun p q hp _ => hp.elim) img
    ⟨rfl, rfl, fun p => ⟨False.elim, fun _ => rfl⟩⟩
    (fun s hs => ⟨seedPoints_mem_grid img.width img.height hw hh s hs, hc s hs⟩)
  refine paintedAs_congr img _ _ _ (fun p => ?_) h0
  simp

lemma chromaSwap_of_chroma (c : Pixel) (h : isChromaRGB c = true) :
    chromaSwap c = transparentPixel := by
  rw [chromaSwap, if_pos h]

lemma chromaSwap_of_not_chroma (c : Pixel) (h : isChromaRGB c = false) :
    chromaSwap c = c := by
  rw [chromaSwap, if_neg]
  rw [h]
  exact Bool.false_ne_true

lemma isChromaRGB_chromaSwap (c : Pixel) : isChromaRGB (chromaSwap c) = false := by
  by_cases h : isChromaRGB c = true
  · rw [chromaSwap_of_chroma c h]
    decide
  · rw [chromaSwap_of_not_chroma c (Bool.not_eq_true _ |>.mp h)]
    exact Bool.not_eq_true _ |>.mp h

lemma chromaSwap_fillValue : chromaSwap fillValue = transparentPixel := by decide

lemma runFills_pix_cases (img : Image) (t : Nat) (p : Nat × Nat) :
    (runFills img t).pix p = img.pix p ∨ (runFills img t).pix p = fillValue :=
  fillFold_pix_cases t (seedPoints img.width img.height) img p

/-- The fill value never appears in the output of the replacement pass:
chroma-colored pixels are exactly the ones replaced. -/
lemma applyMatte_no_chroma (img : Image) (t : Nat) (p : Nat × Nat) :
    isChromaRGB ((applyMatte img t).pix p) = false := by
  rw [applyMatte_pix]
  exact isChromaRGB_chromaSwap _

lemma floodfill_preserves_inv (img0 img1 : Image) (s : Nat × Nat) (t : Nat)
    (hinv : ∀ p : Nat × Nat, img1.pix p = img0.pix p ∨ img1.pix p = fillValue) :
    ∀ p : Nat × Nat, (floodfill img1 s fillValue t).pix p = img0.pix p ∨
      (floodfill img1 s fillValue t).pix p = fillValue := by
  intro p
  rcases floodfill_pix_cases img1 s fillValue t p with hc | hc
  · rcases hinv p with h0 | h0
    · exact Or.inl (hc.trans h0)
    · exact Or.inr (hc.trans h0)
  · exact Or.inr hc

/-- After the fill loop, every in-bounds seed either carries the fill value or
was left alone because the fill value was within threshold of its (original)
color: PIL's early return is the only way a seed pixel survives its own fill. -/
lemma fillFold_seed_state (img0 : Image) (t : Nat) :
    ∀ (ss : List (Nat × Nat)) (img1 : Image),
      img1.width = img0.width → img1.height = img0.height →
      (∀ p : Nat × Nat, img1.pix p = img0.pix p ∨ img1.pix p = fillValue) →
      (∀ s ∈ ss, s ∈ gridF img0.width img0.height) →
      ∀ s ∈ ss, (fillFold t img1 ss).pix s = fillValue ∨
        ((fillFold t img1 ss).pix s = img0.pix s ∧ colorDiff fillValue (img0.pix s) ≤ t) := by
  intro ss
  induction ss with
  | nil =>
    intro img1 _ _ _ _ s hs
    exact absurd hs (List.not_mem_nil s)
  | cons s1 ss ih =>
    intro img1 hw hh hinv hgrid s hs
    rw [fillFold_cons]
    rcases List.mem_cons.mp hs with he | hmem
    · subst he
      by_cases hnear : colorDiff fillValue (img1.pix s) ≤ t
      · rw [floodfill_near_eq img1 s fillValue t hnear]
        rcases hinv s with hcase | hcase
        · rw [hcase] at hnear
          rcases fillFold_pix_cases t ss img1 s with hc | hc
          · exact Or.inr ⟨hc.trans hcase, hnear⟩
          · exact Or.inl hc
        · exact Or.inl (fillFold_pix_fill t ss img1 s hcase)
      · have hsg : s ∈ gridF img1.width img1.height := by
          rw [hw, hh]
          exact hgrid s hs
        have hps : (floodfill img1 s fillValue t).pix s = fillValue := by
          rw [floodfill_far_eq img1 s fillValue t hsg hnear, paint_pix,
            if_pos (seed_mem_component _ _ _ _)]
        exact Or.inl (fillFold_pix_fill t ss _ s hps)
    · exact ih (floodfill img1 s1 fillValue t)
        ((floodfill_width img1 s1 fillValue t).trans hw)
        ((floodfill_height img1 s1 fillValue t).trans hh)
        (floodfill_preserves_inv img0 img1 s1 t hinv)
        (fun s2 hs2 => hgrid s2 (List.mem_cons_of_mem s1 hs2)) s hmem

lemma colorDiff_transparent_ge (c : Pixel) (ha : c.a = 255) :
    255 ≤ colorDiff c transparentPixel := by
  have h : colorDiff c transparentPixel =
      dist1 c.r 255 + dist1 c.g 255 + dist1 c.b 255 + dist1 c.a 0 := rfl
  have h2 : dist1 255 0 = 255 := by decide
  rw [h, ha, h2]
  omega

lemma colorDiff_fill_transparent : colorDiff fillValue transparentPixel = 765 := by decide

/-- One fill on an already-processed image, relative to that processed image
`img1`: under full original opacity and a threshold below 255, the fill can
only repaint parts of the transparent matte with the fill value. -/
lemma c6_floodfill (img1 img2 : Image) (s : Nat × Nat) (t : Nat) (ht : t < 255)
    (hw : img2.width = img1.width) (hh : img2.height = img1.height)
    (H1 : ∀ p ∈ gridF img1.width img1.height,
      img1.pix p = transparentPixel ∨ (img1.pix p).a = 255)
    (hs : s ∈ gridF img1.width img1.height)
    (hs2 : img1.pix s = transparentPixel ∨ colorDiff fillValue (img1.pix s) ≤ t)
    (hQ : ∀ p : Nat × Nat, img2.pix p = img1.pix p ∨
      (img2.pix p = fillValue ∧ img1.pix p = transparentPixel)) :
    ∀ p : Nat × Nat, (floodfill img2 s fillValue t).pix p = img1.pix p ∨
      ((floodfill img2 s fillValue t).pix p = fillValue ∧ img1.pix p = transparentPixel) := by
  rcases hQ s with hbg | ⟨hbg, hms⟩
  · rcases hs2 with hmat | hnear2
    · have hfar : ¬ colorDiff fillValue (img2.pix s) ≤ t := by
        rw [hbg, hmat, colorDiff_fill_transparent]
        omega
      have hsg : s ∈ gridF img2.width img2.height := by
        rw [hw, hh]
        exact hs
      rw [floodfill_far_eq img2 s fillValue t hsg hfar]
      intro p
      rw [paint_pix]
      by_cases hm : p ∈ component (okOf img2 (img2.pix s) t) img2.width img2.height s
      · rw [if_pos hm]
        refine Or.inr ⟨rfl, ?_⟩
        have hr := (mem_component_iff img2 (img2.pix s) t s p hsg).mp hm
        rcases reflTrans_pred img2 (img2.pix s) t s p hr with he | ⟨hpg, hpc⟩
        · rw [he, hmat]
        · rw [hbg, hmat] at hpc
          rcases hQ p with hp1 | ⟨_, hp2⟩
          · rw [hp1] at hpc
            rw [hw, hh] at hpg
            rcases H1 p hpg with hmp | hap
            · exact hmp
            · exact absurd hpc (by have := colorDiff_transparent_ge (img1.pix p) hap; omega)
          · exact hp2
      · rw [if_neg hm]
        exact hQ p
    · have hnear : colorDiff fillValue (img2.pix s) ≤ t := by
        rw [hbg]
        exact hnear2
      rw [floodfill_near_eq img2 s fillValue t hnear]
      exact hQ
  · have hnear : colorDiff fillValue (img2.pix s) ≤ t := by
      rw [hbg, colorDiff_self]
      exact Nat.zero_le t
    rw [floodfill_near_eq img2 s fillValue t hnear]
    exact hQ

/-- The fill loop on an already-processed image only repaints the matte. -/
lemma c6_fillFold (img1 : Image) (t : Nat) (ht : t < 255)
    (H1 : ∀ p ∈ gridF img1.width img1.height,
      img1.pix p = transparentPixel ∨ (img1.pix p).a = 255) :
    ∀ (ss : List (Nat × Nat)),
      (∀ s ∈ ss, s ∈ gridF img1.width img1.height ∧
        (img1.pix s = transparentPixel ∨ colorDiff fillValue (img1.pix s) ≤ t)) →
      ∀ (img2 : Image), img2.width = img1.width → img2.height = img1.height →
        (∀ p : Nat × Nat, img2.pix p = img1.pix p ∨
          (img2.pix p = fillValue ∧ img1.pix p = transparentPixel)) →
        ∀ p : Nat × Nat, (fillFold t img2 ss).pix p = img1.pix p ∨
          ((fillFold t img2 ss).pix p = fillValue ∧ img1.pix p = transparentPixel) := by
  intro ss
  induction ss with
  | nil =>
    intro _ img2 _ _ hQ p
    exact hQ p
  | cons s ss ih =>
    intro hss img2 hw hh hQ p
    rw [fillFold_cons]
    exact ih (fun s2 hs2 => hss s2 (List.mem_cons_of_mem s hs2))
      (floodfill img2 s fillValue t)
      ((floodfill_width img2 s fillValue t).trans hw)
      ((floodfill_height img2 s fillValue t).trans hh)
      (c6_floodfill img1 img2 s t ht hw hh H1
        (hss s (List.mem_cons_self s ss)).1 (hss s (List.mem_cons_self s ss)).2 hQ) p

/-- On a fully opaque input, each pixel of the processed image is either the
transparent matte pixel or the original opaque pixel. -/
lemma applyMatte_char (img : Image) (t : Nat)
    (ha : ∀ p ∈ gridF img.width img.height, (img.pix p).a = 255) :
    ∀ p ∈ gridF img.width img.height,
      (applyMatte img t).pix p = transparentPixel ∨ ((applyMatte img t).pix p).a = 255 := by
  intro p hp
  rw [applyMatte_pix]
  rcases runFills_pix_cases img t p with hc | hc
  · rw [hc]
    by_cases hg : isChromaRGB (img.pix p) = true
    · rw [chromaSwap_of_chroma _ hg]
      exact Or.inl rfl
    · rw [chromaSwap_of_not_chroma _ (Bool.not_eq_true _ |>.mp hg)]
      exact Or.inr (ha p hp)
  · rw [hc, chromaSwap_fillValue]
    exact Or.inl rfl

/-- Each corner of the processed image is either matte or a pixel whose color
is within threshold of the fill value. -/
lemma applyMatte_seed_state (img : Image) (t : Nat) (hw : 0 < img.width) (hh : 0 < img.height) :
    ∀ s ∈ seedPoints img.width img.height,
      (applyMatte img t).pix s = transparentPixel ∨
        colorDiff fillValue ((applyMatte img t).pix s) ≤ t := by
  intro s hs
  have hst := fillFold_seed_state img t (seedPoints img.width img.height) img rfl rfl
    (fun _ => Or.inl rfl) (seedPoints_mem_grid img.width img.height hw hh) s hs
  rw [applyMatte_pix,
    show runFills img t = fillFold t img (seedPoints img.width img.height) from rfl]
  rcases hst with hc | ⟨hc, hnear⟩
  · rw [hc, chromaSwap_fillValue]
    exact Or.inl rfl
  · rw [hc]
    by_cases hg : isChromaRGB (img.pix s) = true
    · rw [chromaSwap_of_chroma _ hg]
      exact Or.inl rfl
    · rw [chromaSwap_of_not_chroma _ (Bool.not_eq_true _ |>.mp hg)]
      exact Or.inr hnear

/-- A file name, as its list of characters. -/
abbrev FileName := List Char

def lowerName (n : FileName) : FileName := n.map Char.toLower

/-- Case-insensitive match for the glob `*.[pP][nN][gG]` at line 34. -/
def isPngName (n : FileName) : Bool := List.isSuffixOf (String.toList ".png") (lowerName n)

/-- Case-insensitive match for the glob `*.[jJ][pP][gG]` at line 35. -/
def isJpgName (n : FileName) : Bool := List.isSuffixOf (String.toList ".jpg") (lowerName n)

/-- Case-insensitive match for the glob `*.[jJ][pP][eE][gG]` at line 36. -/
def isJpegName (n : FileName) : Bool := List.isSuffixOf (String.toList ".jpeg") (lowerName n)

def hasImageExt (n : FileName) : Bool := isPngName n || isJpgName n || isJpegName n

/-- The discovery at lines 34-36: png matches, then jpg, then jpeg. -/
def discoverImages (entries : List FileName) : List FileName :=
  entries.filter isPngName ++ entries.filter isJpgName ++ entries.filter isJpegName

/-- Path.stem: the name without its final extension (the whole name when
there is no dot, or when the only dot leads the name). -/
def stemOf (n : FileName) : FileName :=
  let ext := (n.reverse.takeWhile (fun c => !(c == '.'))).length
  if ext + 1 < n.length then n.take (n.length - ext - 1) else n

/-- The output naming at line 82: the stem with `_transparent.png` appended. -/
def outName (n : FileName) : FileName := stemOf n ++ String.toList "_transparent.png"

/-- The observable log events of the batch run. -/
inductive Event where
  | start : Event
  | noImages : Event
  | saved : FileName → Event
  | failed : FileName → Event
  | done : Event
deriving DecidableEq

/-- One file (lines 50-84): open the image (may fail), transform, save the
result under the derived name (may fail).  A failure anywhere surfaces as an
error value, standing for the exception thrown inside the try block. -/
def processSingleImage {ε : Type} (load : FileName → Except ε Image)
    (save : FileName → Image → Except ε Unit) (t : Nat) (n : FileName) :
    Except ε FileName :=
  match load n with
  | Except.error e => Except.error e
  | Except.ok img =>
    match save (outName n) (applyMatte img t) with
    | Except.error e => Except.error e
    | Except.ok _ => Except.ok (outName n)

/-- The loop body of `process_directory` on an already-discovered file list:
warn and return when it is empty, otherwise process every file inside a
per-file exception boundary and log completion at the end.  Returns the log
together with the names of the output files actually written. -/
def runBatch {ε : Type} (files : List FileName)
    (load : FileName → Except ε Image) (save : FileName → Image → Except ε Unit)
    (t : Nat) : List Event × List FileName :=
  match files with
  | [] => ([Event.start, Event.noImages], [])
  | _ :: _ =>
    (Event.start :: (files.map (fun n =>
        match processSingleImage load save t n with
        | Except.ok out => Event.saved out
        | Except.error _ => Event.failed n) ++ [Event.done]),
      files.filterMap (fun n => (processSingleImage load save t n).toOption))

/-- The batch entry point (lines 29-48): log start, discover the image files,
then run the loop. -/
def processDirectory {ε : Type} (entries : List FileName)
    (load : FileName → Except ε Image) (save : FileName → Image → Except ε Unit)
    (t : Nat) : List Event × List FileName :=
  runBatch (discoverImages entries) load save t

lemma discover_eq_nil (entries : List FileName)
    (h : ∀ n ∈ entries, hasImageExt n = false) : discoverImages entries = [] := by
  have hext : ∀ n ∈ entries,
      isPngName n = false ∧ isJpgName n = false ∧ isJpegName n = false := by
    intro n hn
    have h2 := h n hn
    rw [hasImageExt] at h2
    simp only [Bool.or_eq_false_iff] at h2
    exact ⟨h2.1.1, h2.1.2, h2.2⟩
  rw [discoverImages]
  rw [List.filter_eq_nil_iff.mpr (fun a ha => by rw [(hext a ha).1]; exact Bool.false_ne_true)]
  rw [List.filter_eq_nil_iff.mpr (fun a ha => by rw [(hext a ha).2.1]; exact Bool.false_ne_true)]
  rw [List.filter_eq_nil_iff.mpr (fun a ha => by rw [(hext a ha).2.2]; exact Bool.false_ne_true)]
  rfl

lemma processDirectory_def {ε : Type} (entries : List FileName)
    (load : FileName → Except ε Image) (save : FileName → Image → Except ε Unit)
    (t : Nat) :
    processDirectory entries load save t = runBatch (discoverImages entries) load save t := rfl

lemma runBatch_cons {ε : Type} (n0 : FileName) (rest : List FileName)
    (load : FileName → Except ε Image) (save : FileName → Image → Except ε Unit)
    (t : Nat) :
    runBatch (n0 :: rest) load save t =
      (Event.start :: ((n0 :: rest).map (fun n =>
        match processSingleImage load save t n with
        | Except.ok out => Event.saved out
        | Except.error _ => Event.failed n) ++ [Event.done]),
      (n0 :: rest).filterMap (fun n => (processSingleImage load save t n).toOption)) := rfl

/-- When every corner seed is within threshold of the fill value, all fills
return early and the fill loop is the identity. -/
lemma fillFold_near_id (img : Image) (t : Nat) :
    ∀ ss : List (Nat × Nat), (∀ s ∈ ss, colorDiff fillValue (img.pix s) ≤ t) →
      fillFold t img ss = img := by
  intro ss
  induction ss with
  | nil => intro _; rfl
  | cons s ss ih =>
    intro h
    rw [fillFold_cons, floodfill_near_eq img s fillValue t (h s (List.mem_cons_self s ss))]
    exact ih (fun s2 hs2 => h s2 (List.mem_cons_of_mem s hs2))

/-- Concrete 1x1 image whose pixel is nearly the chroma color (C1). -/
def cex1img : Image := ⟨1, 1, fun _ => ⟨0, 255, 1, 255⟩⟩

/-- Concrete 2x1 uniform dark image (C1 witness). -/
def w1img : Image := ⟨2, 1, fun _ => ⟨10, 10, 10, 255⟩⟩

/-- Concrete 1x1 chroma-colored image (C2 witness). -/
def w2img : Image := ⟨1, 1, fun _ => ⟨0, 255, 0, 255⟩⟩

/-- Concrete 1x1 nearly-chroma image (C2 witness, second branch). -/
def w2bimg : Image := ⟨1, 1, fun _ => ⟨0, 255, 20, 255⟩⟩

/-- The 4x4 scenario image of the spec: all white, red center 2x2 block. -/
def c3img : Image :=
  ⟨4, 4, fun p => if 1 ≤ p.1 ∧ p.1 ≤ 2 ∧ 1 ≤ p.2 ∧ p.2 ≤ 2
    then ⟨255, 0, 0, 255⟩ else ⟨255, 255, 255, 255⟩⟩

/-- Concrete 3x1 image white-red-white (C4 witness). -/
def c4img : Image :=
  ⟨3, 1, fun p => if p.1 = 1 then ⟨255, 0, 0, 255⟩ else ⟨255, 255, 255, 255⟩⟩

/-- Concrete 1x1 nearly-chroma image (C5 counterexample). -/
def cex5img : Image := ⟨1, 1, fun _ => ⟨0, 255, 20, 255⟩⟩

/-- Concrete 2x1 uniform black image (C5 witness). -/
def w5img : Image := ⟨2, 1, fun _ => ⟨0, 0, 0, 255⟩⟩

/-- Concrete 3x1 image with a translucent middle pixel close to the
transparent placeholder (C6 counterexample). -/
def cex6img : Image :=
  ⟨3, 1, fun p => if p.1 = 1 then ⟨250, 250, 250, 20⟩ else ⟨0, 0, 0, 255⟩⟩

/-- Concrete 2x1 uniform opaque black image (C6 witness). -/
def w6img : Image := ⟨2, 1, fun _ => ⟨0, 0, 0, 255⟩⟩

/-- Concrete 1x1 nearly-chroma image (C10 witness). -/
def w10img : Image := ⟨1, 1, fun _ => ⟨0, 255, 20, 255⟩⟩

/-- Concrete 1x1 image for the batch demos. -/
def demoImg : Image := ⟨1, 1, fun _ => ⟨0, 0, 0, 255⟩⟩

/-- A loader failing exactly on bad.png (C8 witness). -/
def demoLoad : FileName → Except Unit Image :=
  fun n => if n = String.toList "bad.png" then Except.error () else Except.ok demoImg

/-- A saver that always succeeds (C8 witness). -/
def demoSave : FileName → Image → Except Unit Unit := fun _ _ => Except.ok ()

/-- A directory with one failing and one succeeding image (C8 witness). -/
def demoEntries : List FileName := [String.toList "bad.png", String.toList "good.jpg"]

/-- C1, counterexample: on the 1x1 image whose pixel is (0,255,1,255), at
threshold 10 the corner flood fill overwrites nothing — the pixel keeps its
color instead of becoming (0,255,0,255) — even though the corner seed is
4-connected to itself within the threshold.  PIL's floodfill returns before
filling whenever the fill value is within the threshold of the seed color. -/
theorem c1_counterexample :
    (floodfill cex1img (0, 0) fillValue 10).pix (0, 0) = ⟨0, 255, 1, 255⟩ ∧
    (floodfill cex1img (0, 0) fillValue 10).pix (0, 0) ≠ fillValue ∧
    Reaches cex1img 10 (0, 0) (0, 0) :=
  ⟨by decide, by decide, Relation.ReflTransGen.refl⟩

/-- C1, amended: provided the fill value (0,255,0,255) is not within the
threshold of the seed pixel's color at the start of that fill, a corner flood
fill of apply overwrites exactly the pixels 4-connected to the corner seed
through pixels whose sum of absolute per-channel (RGBA) differences from the
seed's original color is at most the threshold — setting each such pixel to
the fill color (0,255,0) at alpha 255 and leaving every other pixel
unchanged; the comparison is always against the seed's original color. -/
theorem c1_fill_exact (img : Image) (t : Nat) (s : Nat × Nat)
    (hs : s ∈ gridF img.width img.height)
    (hfar : t < colorDiff fillValue (img.pix s)) (p : Nat × Nat) :
    (Reaches img t s p → (floodfill img s fillValue t).pix p = fillValue) ∧
    (¬ Reaches img t s p → (floodfill img s fillValue t).pix p = img.pix p) :=
  floodfill_pix_far img s fillValue t hs (Nat.not_le.mpr hfar) p

/-- C1, witness: on the uniform 2x1 dark image at threshold 50 the corner fill
paints the reachable neighbor and leaves an unreachable coordinate alone. -/
theorem c1_witness :
    (floodfill w1img (0, 0) fillValue 50).pix (1, 0) = fillValue ∧
    (floodfill w1img (0, 0) fillValue 50).pix (5, 0) = w1img.pix (5, 0) := by
  constructor
  · exact (c1_fill_exact w1img 50 (0, 0) (by decide) (by decide) (1, 0)).1
      (Relation.ReflTransGen.tail Relation.ReflTransGen.refl ⟨by decide, by decide, by decide⟩)
  · refine (c1_fill_exact w1img 50 (0, 0) (by decide) (by decide) (5, 0)).2 ?_
    intro hr
    rcases reflTrans_pred w1img (w1img.pix (0, 0)) 50 (0, 0) (5, 0) hr with he | ⟨hg, _⟩
    · exact absurd he (by decide)
    · exact absurd hg (by decide)

/-- C2: after the four corner fills, the second pass replaces every pixel
whose RGB is exactly (0,255,0) — regardless of its current alpha — with the
pixel (255,255,255,0), and leaves every pixel whose RGB is not exactly
(0,255,0) unchanged; no threshold comparison is involved in this pass. -/
theorem c2_second_pass (img : Image) (t : Nat) (p : Nat × Nat) :
    (isChromaRGB ((runFills img t).pix p) = true →
      (applyMatte img t).pix p = transparentPixel) ∧
    (isChromaRGB ((runFills img t).pix p) = false →
      (applyMatte img t).pix p = (runFills img t).pix p) := by
  constructor
  · intro hg
    rw [applyMatte_pix, chromaSwap_of_chroma _ hg]
  · intro hg
    rw [applyMatte_pix, chromaSwap_of_not_chroma _ hg]

/-- C2, witness: a chroma-colored pixel after the fills becomes the
transparent pixel; a non-chroma pixel survives the pass unchanged. -/
theorem c2_witness :
    (applyMatte w2img 0).pix (0, 0) = transparentPixel ∧
    (applyMatte w2bimg 30).pix (0, 0) = w2bimg.pix (0, 0) := by
  constructor
  · exact (c2_second_pass w2img 0 (0, 0)).1 (by decide)
  · have h := (c2_second_pass w2bimg 30 (0, 0)).2 (by decide)
    rw [h]
    decide

/-- C3: on the 4x4 image that is all white except a red center 2x2 block, at
threshold 10 the transform leaves the 4 center pixels exactly (255,0,0,255)
and makes all 12 border pixels fully transparent (alpha 0). -/
theorem c3_scenario :
    ∀ p ∈ gridF 4 4,
      ((1 ≤ p.1 ∧ p.1 ≤ 2 ∧ 1 ≤ p.2 ∧ p.2 ≤ 2) →
        (applyMatte c3img 10).pix p = ⟨255, 0, 0, 255⟩) ∧
      (¬ (1 ≤ p.1 ∧ p.1 ≤ 2 ∧ 1 ≤ p.2 ∧ p.2 ≤ 2) →
        ((applyMatte c3img 10).pix p).a = 0) := by
  decide

/-- C3, witness: the scenario instantiated at a center and a border pixel. -/
theorem c3_witness :
    (applyMatte c3img 10).pix (1, 1) = ⟨255, 0, 0, 255⟩ ∧
    ((applyMatte c3img 10).pix (0, 0)).a = 0 :=
  ⟨(c3_scenario (1, 1) (by decide)).1 (by decide),
   (c3_scenario (0, 0) (by decide)).2 (by decide)⟩

/-- C4: a pixel of the image that is not 4-connected within the threshold to
any of the four corner seeds keeps its RGB and alpha unchanged through apply,
with the sole exception of pixels whose RGB is exactly (0,255,0), which
become the transparent pixel regardless of connectivity. -/
theorem c4_unconnected_unchanged (img : Image) (t : Nat) (Q : Nat × Nat)
    (_hQ : Q ∈ gridF img.width img.height)
    (hun : ∀ s ∈ seedPoints img.width img.height, ¬ Reaches img t s Q) :
    (isChromaRGB (img.pix Q) = false → (applyMatte img t).pix Q = img.pix Q) ∧
    (isChromaRGB (img.pix Q) = true → (applyMatte img t).pix Q = transparentPixel) := by
  have hr := runFills_pix_unreached img t Q hun
  constructor
  · intro hg
    rw [applyMatte_pix, hr, chromaSwap_of_not_chroma _ hg]
  · intro hg
    rw [applyMatte_pix, hr, chromaSwap_of_chroma _ hg]

/-- C4, witness: in the white-red-white 3x1 image at threshold 100 the red
middle pixel is disconnected from both corners and survives unchanged. -/
theorem c4_witness : (applyMatte c4img 100).pix (1, 0) = ⟨255, 0, 0, 255⟩ := by
  have hun : ∀ s ∈ seedPoints c4img.width c4img.height, ¬ Reaches c4img 100 s (1, 0) := by
    intro s hs hr
    have hsg : s ∈ gridF c4img.width c4img.height :=
      seedPoints_mem_grid c4img.width c4img.height (by decide) (by decide) s hs
    have hm := (mem_component_iff c4img (c4img.pix s) 100 s (1, 0) hsg).mpr hr
    have hcases : s = (0, 0) ∨ s = (2, 0) := by
      rw [show seedPoints c4img.width c4img.height
        = [(0, 0), (2, 0), (0, 0), (2, 0)] from rfl] at hs
      simp only [List.mem_cons, List.not_mem_nil, or_false] at hs
      tauto
    rcases hcases with he | he
    · rw [he] at hm
      exact absurd hm (by decide)
    · rw [he] at hm
      exact absurd hm (by decide)
  have h := (c4_unconnected_unchanged c4img 100 (1, 0) (by decide) hun).1 (by decide)
  rw [h]
  decide

/-- C5, counterexample: on the 1x1 image whose pixel is (0,255,20,255), with
thresholds 10 ≤ 30, the pixel is made transparent by apply at threshold 10
but is left opaque and unchanged at threshold 30, so the transparent region
at the smaller threshold is not contained in the one at the larger
threshold. -/
theorem c5_counterexample :
    (10 : Nat) ≤ 30 ∧
    (applyMatte cex5img 10).pix (0, 0) = transparentPixel ∧
    (applyMatte cex5img 30).pix (0, 0) = ⟨0, 255, 20, 255⟩ ∧
    ((applyMatte cex5img 30).pix (0, 0)).a ≠ 0 :=
  ⟨by decide, by decide, by decide, by decide⟩

/-- C5, amended: threshold monotonicity holds for a fixed image whose four
corner pixels share one color, provided no in-bounds pixel lies within the
larger threshold (L1 over RGBA) of the fill value (0,255,0,255): for t1 ≤ t2,
every pixel made transparent by apply at t1 is transparent at t2. -/
theorem c5_monotone (img : Image) (t1 t2 : Nat) (h12 : t1 ≤ t2)
    (hw : 0 < img.width) (hh : 0 < img.height)
    (hc : ∀ s ∈ seedPoints img.width img.height, img.pix s = img.pix (0, 0))
    (hfar : ∀ p ∈ gridF img.width img.height, t2 < colorDiff fillValue (img.pix p))
    (p : Nat × Nat)
    (hp : (applyMatte img t1).pix p = transparentPixel) :
    (applyMatte img t2).pix p = transparentPixel := by
  have hfar1 : ∀ q ∈ gridF img.width img.height,
      ¬ colorDiff fillValue (img.pix q) ≤ t1 :=
    fun q hq => Nat.not_le.mpr (lt_of_le_of_lt h12 (hfar q hq))
  have hfar2 : ∀ q ∈ gridF img.width img.height,
      ¬ colorDiff fillValue (img.pix q) ≤ t2 :=
    fun q hq => Nat.not_le.mpr (hfar q hq)
  obtain ⟨_, _, hpix1⟩ := runFills_paintedAs img t1 hw hh hc hfar1
  obtain ⟨_, _, hpix2⟩ := runFills_paintedAs img t2 hw hh hc hfar2
  rw [applyMatte_pix] at hp ⊢
  by_cases hreach : ∃ s ∈ seedPoints img.width img.height,
      Relation.ReflTransGen (Steps img (img.pix (0, 0)) t1) s p
  · obtain ⟨s, hsm, hr⟩ := hreach
    have hr2 : Relation.ReflTransGen (Steps img (img.pix (0, 0)) t2) s p :=
      reflTrans_mono_thresh img _ h12 hr
    rw [(hpix2 p).1 ⟨s, hsm, hr2⟩, chromaSwap_fillValue]
  · rw [(hpix1 p).2 hreach] at hp
    by_cases hreach2 : ∃ s ∈ seedPoints img.width img.height,
        Relation.ReflTransGen (Steps img (img.pix (0, 0)) t2) s p
    · rw [(hpix2 p).1 hreach2, chromaSwap_fillValue]
    · rw [(hpix2 p).2 hreach2]
      exact hp

/-- C5, witness: the amended monotonicity applied on the uniform 2x1 black
image with thresholds 0 ≤ 5. -/
theorem c5_witness : (applyMatte w5img 5).pix (0, 0) = transparentPixel :=
  c5_monotone w5img 0 5 (by decide) (by decide) (by decide) (by decide)
    (by decide) (0, 0) (by decide)

/-- C6, counterexample: on the 3x1 image black, (250,250,250,20), black at
threshold 100, one application leaves the translucent middle pixel unchanged,
but a second application mattes it away: apply(apply(img)) differs from
apply(img). -/
theorem c6_counterexample :
    (applyMatte cex6img 100).pix (1, 0) = ⟨250, 250, 250, 20⟩ ∧
    (applyMatte (applyMatte cex6img 100) 100).pix (1, 0) = transparentPixel ∧
    (applyMatte (applyMatte cex6img 100) 100).pix (1, 0) ≠
      (applyMatte cex6img 100).pix (1, 0) :=
  ⟨by decide, by decide, by decide⟩

/-- C6, amended: apply is idempotent on every input image all of whose
in-bounds pixels are fully opaque (alpha 255), for every threshold below 255
(the transparent placeholder RGB (255,255,255) differs from the fill RGB
(0,255,0), and with these hypotheses the second run's fills can only repaint
the matte, which the second pass restores). -/
theorem c6_idempotent (img : Image) (t : Nat) (ht : t < 255)
    (hw : 0 < img.width) (hh : 0 < img.height)
    (ha : ∀ p ∈ gridF img.width img.height, (img.pix p).a = 255) (p : Nat × Nat) :
    (applyMatte (applyMatte img t) t).pix p = (applyMatte img t).pix p := by
  have hW : (applyMatte img t).width = img.width := applyMatte_width img t
  have hH : (applyMatte img t).height = img.height := applyMatte_height img t
  have H1 : ∀ q ∈ gridF (applyMatte img t).width (applyMatte img t).height,
      (applyMatte img t).pix q = transparentPixel ∨ ((applyMatte img t).pix q).a = 255 := by
    rw [hW, hH]
    exact applyMatte_char img t ha
  have H2 : ∀ s ∈ seedPoints (applyMatte img t).width (applyMatte img t).height,
      s ∈ gridF (applyMatte img t).width (applyMatte img t).height ∧
      ((applyMatte img t).pix s = transparentPixel ∨
        colorDiff fillValue ((applyMatte img t).pix s) ≤ t) := by
    rw [hW, hH]
    intro s hs
    exact ⟨seedPoints_mem_grid img.width img.height hw hh s hs,
      applyMatte_seed_state img t hw hh s hs⟩
  have hG := c6_fillFold (applyMatte img t) t ht H1
    (seedPoints (applyMatte img t).width (applyMatte img t).height) H2
    (applyMatte img t) rfl rfl (fun _ => Or.inl rfl) p
  rw [applyMatte_pix (applyMatte img t) t,
    show runFills (applyMatte img t) t
      = fillFold t (applyMatte img t)
          (seedPoints (applyMatte img t).width (applyMatte img t).height) from rfl]
  rcases hG with hc | ⟨hc, hm⟩
  · rw [hc, chromaSwap_of_not_chroma _ (applyMatte_no_chroma img t p)]
  · rw [hc, chromaSwap_fillValue, hm]

/-- C6, witness: idempotence on the uniform opaque 2x1 black image at
threshold 100. -/
theorem c6_witness :
    (applyMatte (applyMatte w6img 100) 100).pix (0, 0) = (applyMatte w6img 100).pix (0, 0) :=
  c6_idempotent w6img 100 (by decide) (by decide) (by decide) (by decide) (0, 0)

/-- C7: no pixel of the final output of apply has RGB exactly equal to the
chroma color (0,255,0): the second pass replaces every chroma-colored pixel,
so the chroma color only ever exists between the fills and the replacement. -/
theorem c7_no_chroma_in_output (img : Image) (t : Nat) (p : Nat × Nat) :
    isChromaRGB ((applyMatte img t).pix p) = false :=
  applyMatte_no_chroma img t p

/-- C8: with a nonempty discovery, for arbitrary loaders and savers (hence
arbitrary per-file failures), the batch logs the completion message last,
logs an error event for every file whose processing fails, and logs the
saved output for every file whose processing succeeds — so failures are
caught at the per-file boundary and never abort the batch. -/
theorem c8_batch_isolation (ε : Type) (entries : List FileName)
    (load : FileName → Except ε Image) (save : FileName → Image → Except ε Unit)
    (t : Nat) (hne : discoverImages entries ≠ []) :
    (processDirectory entries load save t).1.getLast? = some Event.done ∧
    (∀ n ∈ discoverImages entries, ∀ e : ε,
      processSingleImage load save t n = Except.error e →
      Event.failed n ∈ (processDirectory entries load save t).1) ∧
    (∀ n ∈ discoverImages entries, ∀ out : FileName,
      processSingleImage load save t n = Except.ok out →
      Event.saved out ∈ (processDirectory entries load save t).1) := by
  rcases hl : discoverImages entries with _ | ⟨n0, rest⟩
  · exact absurd hl hne
  · rw [processDirectory_def, hl, runBatch_cons]
    refine ⟨?_, ?_, ?_⟩
    · show (Event.start :: (_ ++ [Event.done])).getLast? = some Event.done
      rw [← List.cons_append]
      exact List.getLast?_concat _
    · intro n hn e he
      refine List.mem_cons_of_mem _ (List.mem_append_left _ ?_)
      have hmem := List.mem_map_of_mem (fun n =>
        match processSingleImage load save t n with
        | Except.ok out => Event.saved out
        | Except.error _ => Event.failed n) hn
      simp only [he] at hmem
      exact hmem
    · intro n hn out he
      refine List.mem_cons_of_mem _ (List.mem_append_left _ ?_)
      have hmem := List.mem_map_of_mem (fun n =>
        match processSingleImage load save t n with
        | Except.ok out => Event.saved out
        | Except.error _ => Event.failed n) hn
      simp only [he] at hmem
      exact hmem

/-- C8, witness: with bad.png failing to load and good.jpg succeeding, the
batch logs the failure, saves and logs the other file, and ends with the
completion event. -/
theorem c8_witness :
    Event.failed (String.toList "bad.png")
      ∈ (processDirectory demoEntries demoLoad demoSave 100).1 ∧
    Event.saved (outName (String.toList "good.jpg"))
      ∈ (processDirectory demoEntries demoLoad demoSave 100).1 ∧
    (processDirectory demoEntries demoLoad demoSave 100).1.getLast? = some Event.done := by
  have h := c8_batch_isolation Unit demoEntries demoLoad demoSave 100 (by decide)
  exact ⟨h.2.1 (String.toList "bad.png") (by decide) () rfl,
    h.2.2 (String.toList "good.jpg") (by decide) (outName (String.toList "good.jpg")) rfl,
    h.1⟩

/-- C9: when no entry of the input directory has a png, jpg or jpeg extension
(case-insensitively), the run logs the start and the warning only, writes no
output file, returns normally, and never logs the completion message. -/
theorem c9_empty_discovery (ε : Type) (entries : List FileName)
    (load : FileName → Except ε Image) (save : FileName → Image → Except ε Unit)
    (t : Nat) (h : ∀ n ∈ entries, hasImageExt n = false) :
    processDirectory entries load save t = ([Event.start, Event.noImages], []) ∧
    Event.done ∉ (processDirectory entries load save t).1 ∧
    (processDirectory entries load save t).2 = [] := by
  have h1 : processDirectory entries load save t = ([Event.start, Event.noImages], []) := by
    rw [processDirectory_def, discover_eq_nil entries h]
    rfl
  refine ⟨h1, ?_, by rw [h1]⟩
  rw [h1]
  decide

/-- C9, witness: a directory holding only readme.txt. -/
theorem c9_witness :
    processDirectory [String.toList "readme.txt"] demoLoad demoSave 100
      = ([Event.start, Event.noImages], []) :=
  (c9_empty_discovery Unit [String.toList "readme.txt"] demoLoad demoSave 100 (by decide)).1

/-- C10: when a corner seed's RGBA pixel lies within L1 distance threshold of
the fill value (0,255,0,255), the flood fill launched from that corner
modifies no pixel at all; consequently, when every corner is in that
situation, apply leaves every pixel whose RGB is not exactly (0,255,0)
unchanged — a background merely close to pure green stays opaque. -/
theorem c10_near_seed_skip :
    (∀ (img : Image) (s : Nat × Nat) (t : Nat),
      colorDiff fillValue (img.pix s) ≤ t → floodfill img s fillValue t = img) ∧
    (∀ (img : Image) (t : Nat),
      (∀ s ∈ seedPoints img.width img.height, colorDiff fillValue (img.pix s) ≤ t) →
      ∀ p : Nat × Nat, isChromaRGB (img.pix p) = false →
        (applyMatte img t).pix p = img.pix p) := by
  constructor
  · intro img s t hnear
    exact floodfill_near_eq img s fillValue t hnear
  · intro img t hseeds p hg
    have hrf : runFills img t = img :=
      fillFold_near_id img t (seedPoints img.width img.height) hseeds
    rw [applyMatte_pix, hrf, chromaSwap_of_not_chroma _ hg]

/-- C10, witness: the 1x1 image with pixel (0,255,20,255) at threshold 30 —
the fill modifies nothing and the final output keeps the pixel opaque. -/
theorem c10_witness :
    floodfill w10img (0, 0) fillValue 30 = w10img ∧
    (applyMatte w10img 30).pix (0, 0) = w10img.pix (0, 0) :=
  ⟨c10_near_seed_skip.1 w10img (0, 0) 30 (by decide),
   c10_near_seed_skip.2 w10img 30 (by decide) (0, 0) (by decide)⟩

end Sukeru
